import Mathlib

/-!
Verification of the oview retrieval-augmented indexing pipeline.

This file gives a shallow embedding of the core of the oview code base
(chunking engine, stub embedding generator, vector-store client SQL, and the
line-delimited JSON-RPC protocol server) and proves the spec's claims about it.

Modelling conventions:
- Go strings are modelled as lists of characters (GoStr); Go byte lengths
  coincide with character counts on the ASCII inputs the proofs exercise.
- Go regular-expression matching (regexp.FindAllStringSubmatchIndex) for the
  four concrete patterns the chunker uses is embedded as explicit scanners
  with the same leftmost, greedy, non-overlapping semantics.
- SQL statements (INSERT .. ON CONFLICT, SELECT .. ORDER BY .. LIMIT with
  UNION ALL) are embedded with standard list semantics over an explicit table
  of rows; the pgvector cosine-distance operator is an abstract parameter
  (the spec treats the store's distance computation as a black box).
- Network and IO effects (the embedding HTTP providers, database handles,
  stdin/stdout) are abstracted into function parameters returning Except;
  sha256 is abstracted into its (deterministic) result.
-/

/-- Go strings, embedded as lists of characters. -/
abbrev GoStr := List Char

/-- ASCII fragment of Go unicode.IsSpace, covering the whitespace characters
strings.TrimSpace can meet in the inputs modelled here. -/
def goIsSpace (c : Char) : Bool :=
  c = ' ' ∨ c = '\t' ∨ c = '\n' ∨ c = '\r' ∨ c = '\x0b' ∨ c = '\x0c'

/-- The character class matched by a regexp word escape. -/
def isWordChar (c : Char) : Bool := c.isAlphanum || c = '_'

/-- Left part of strings.TrimSpace. -/
def trimLeft (s : GoStr) : GoStr := s.dropWhile goIsSpace

/-- Right part of strings.TrimSpace. -/
def trimRight (s : GoStr) : GoStr := (s.reverse.dropWhile goIsSpace).reverse

/-- strings.TrimSpace: drop whitespace from both ends. -/
def trimSpace (s : GoStr) : GoStr := trimLeft (trimRight s)

/-- strings.Split(s, "\n"): n+1 pieces for n newlines; the empty string gives
one empty piece. -/
def splitLines (s : GoStr) : List GoStr := List.splitOn '\n' s

/-- bufio.Scanner with ScanLines: like splitLines but without the empty final
token after a trailing newline, and with a terminal carriage return dropped. -/
def scanLines (s : GoStr) : List GoStr :=
  let dropCR : GoStr → GoStr := fun l =>
    match l.getLast? with
    | some '\r' => l.dropLast
    | _ => l
  if s = [] then []
  else if s.getLast? = some '\n' then (splitLines s).dropLast.map dropCR
  else (splitLines s).map dropCR

/-- Contents of a strings.Builder that accumulated line + "\n" writes. -/
def accStr (acc : List GoStr) : GoStr := (acc.map (fun l => l ++ ['\n'])).flatten

/-- Go slice expression s[a:b]. -/
def goSlice (s : GoStr) (a b : Nat) : GoStr := (s.take b).drop a

/-- strings.Contains. -/
def containsSub (s pat : GoStr) : Bool :=
  (List.range (s.length + 1)).any fun i => pat.isPrefixOf (s.drop i)

/-- strings.ToLower (ASCII). -/
def toLowerStr (s : GoStr) : GoStr := s.map Char.toLower

/-- filepath.Ext: the suffix beginning at the final dot in the final
slash-separated element; empty when that element has no dot. -/
def filepathExt (p : GoStr) : GoStr :=
  let afterDot := p.reverse.takeWhile (fun c => !(c = '.' || c = '/'))
  match p.reverse.drop afterDot.length with
  | '.' :: _ => '.' :: afterDot.reverse
  | _ => []

/-- filepath.Base: the last element of the path, with trailing slashes
removed; "." for the empty path and "/" for a path of only slashes. -/
def filepathBase (p : GoStr) : GoStr :=
  if p = [] then ['.']
  else
    let q := (p.reverse.dropWhile (· = '/')).reverse
    if q = [] then ['/']
    else (q.reverse.takeWhile (· ≠ '/')).reverse

/-- filepath.Dir, simplified to dropping the last path element (the chunker
only feeds the result to getComponent; filepath.Clean's slash normalisation
is not modelled). -/
def filepathDir (p : GoStr) : GoStr :=
  let tail := p.reverse.dropWhile (· ≠ '/')
  if tail = [] then ['.']
  else
    let d := (tail.drop 1).reverse
    if d = [] then ['/'] else d

/-- getComponent from chunker.go: the last non-empty, non-dot segment of the
directory part of the path. -/
def getComponent (path : GoStr) : GoStr :=
  let parts := List.splitOn '/' (filepathDir path)
  match parts.reverse.find? (fun q => decide (q ≠ [] ∧ q ≠ ['.'])) with
  | some q => q
  | none => []

/-- getFileType from chunker.go. -/
def getFileType (path : GoStr) : GoStr :=
  if containsSub path "/tests/".toList || containsSub path "/test/".toList then "test".toList
  else if containsSub path "/config/".toList then "config".toList
  else if containsSub path "/docs/".toList || ".md".toList.isSuffixOf path then "doc".toList
  else "code".toList

/-- detectLanguage from chunker.go. -/
def detectLanguage (path : GoStr) : GoStr :=
  let ext := toLowerStr (filepathExt path)
  if ext = ".php".toList then "PHP".toList
  else if ext = ".js".toList then "JavaScript".toList
  else if ext = ".ts".toList then "TypeScript".toList
  else if ext = ".jsx".toList then "JSX".toList
  else if ext = ".tsx".toList then "TSX".toList
  else if ext = ".py".toList then "Python".toList
  else if ext = ".go".toList then "Go".toList
  else if ext = ".java".toList then "Java".toList
  else if ext = ".rb".toList then "Ruby".toList
  else if ext = ".yaml".toList ∨ ext = ".yml".toList then "YAML".toList
  else if ext = ".json".toList then "JSON".toList
  else if ext = ".xml".toList then "XML".toList
  else if ext = ".md".toList then "Markdown".toList
  else if ext = ".html".toList ∨ ext = ".twig".toList then "HTML".toList
  else if ext = ".css".toList ∨ ext = ".scss".toList ∨ ext = ".sass".toList then "CSS".toList
  else "Unknown".toList

/-- A chunk of code/documentation (struct Chunk in chunker.go; the Type field
is renamed to lowercase type, which Lean reserves, and the other fields are
lowercased to match). -/
structure Chunk where
  path : GoStr
  language : GoStr
  symbol : GoStr
  component : GoStr
  content : GoStr
  type : GoStr
deriving DecidableEq, Repr

/-- Per-file-type chunking rule (config.ChunkRule): only MaxSize is read by
the chunker. -/
structure ChunkRule where
  MaxSize : Nat
deriving DecidableEq, Repr

/-- The chunking section of config.RAGConfig, reconstructed from its uses in
chunker.go (the config package itself is outside the excerpted sources). -/
structure ChunkingRules where
  PHP : ChunkRule
  JavaScript : ChunkRule
  Twig : ChunkRule
  YAML : ChunkRule
  Generic : ChunkRule
deriving DecidableEq, Repr

/-- config.RAGConfig, restricted to the fields the chunker reads. -/
structure RAGConfig where
  Chunking : ChunkingRules
deriving DecidableEq, Repr

/-- The chunk emitted for one accumulated group of lines by chunkBySize. -/
def sizeChunk (path language fileType : GoStr) (raw : GoStr) (chunkNum : Nat) : Chunk :=
  { path := path, language := language,
    symbol := "chunk-".toList ++ (toString chunkNum).toList,
    component := getComponent path, content := trimSpace raw, type := fileType }

/-- The line loop of chunkBySize: accumulate whole lines; when adding the next
line would push the builder past maxSize, emit the builder (trimmed) and start
over with that line; emit a final non-empty builder. -/
def chunkLoop (path language fileType : GoStr) (maxSize : Nat) :
    List GoStr → List GoStr → Nat → List Chunk
  | [], acc, chunkNum =>
    if 0 < (accStr acc).length then [sizeChunk path language fileType (accStr acc) chunkNum]
    else []
  | line :: ls, acc, chunkNum =>
    if maxSize < (accStr acc).length + line.length then
      sizeChunk path language fileType (accStr acc) chunkNum ::
        chunkLoop path language fileType maxSize ls [line] (chunkNum + 1)
    else chunkLoop path language fileType maxSize ls (acc ++ [line]) chunkNum

/-- chunkBySize from chunker.go: content at most maxSize becomes a single
untrimmed whole-file chunk; otherwise the content is split on newlines and
chunked by the line loop. -/
def chunkBySize (path content : GoStr) (maxSize : Nat) (language fileType : GoStr) :
    Except GoStr (List Chunk) :=
  if content.length ≤ maxSize then
    Except.ok [{ path := path, language := language, symbol := [],
                 component := getComponent path, content := content, type := fileType }]
  else
    Except.ok (chunkLoop path language fileType maxSize (splitLines content) [] 0)

/-- Tail of the class regexp after the optional abstract/final prefix:
literal class, one or more whitespace, then the captured word. Returns the
captured name and the number of characters consumed. -/
def matchClassKw (t : GoStr) : Option (GoStr × Nat) :=
  if t.take 5 = "class".toList then
    let t1 := t.drop 5
    let ws := t1.takeWhile goIsSpace
    if ws = [] then none
    else
      let t2 := t1.drop ws.length
      let name := t2.takeWhile isWordChar
      if name = [] then none else some (name, 5 + ws.length + name.length)
  else none

/-- The chunker's class regexp, tried at a line start. Greedy matching with
no observable backtracking: when the abstract/final branch consumes input but
the rest fails, the empty branch needs the literal class at the same spot,
which the consumed keyword excludes. -/
def matchClassAt (s : GoStr) : Option (GoStr × Nat) :=
  if s.take 8 = "abstract".toList then
    let t := s.drop 8
    let ws := t.takeWhile goIsSpace
    if ws = [] then none
    else (matchClassKw (t.drop ws.length)).map fun r => (r.1, 8 + ws.length + r.2)
  else if s.take 5 = "final".toList then
    let t := s.drop 5
    let ws := t.takeWhile goIsSpace
    if ws = [] then none
    else (matchClassKw (t.drop ws.length)).map fun r => (r.1, 5 + ws.length + r.2)
  else matchClassKw s

/-- The chunker's function regexp, tried at a line start: optional leading
whitespace, optional visibility keyword, whitespace, literal function, at
least one whitespace, the captured word, optional whitespace and an opening
parenthesis (included in the match). -/
def matchFuncAt (s : GoStr) : Option (GoStr × Nat) :=
  let ws1 := s.takeWhile goIsSpace
  let t1 := s.drop ws1.length
  let kw : Nat × GoStr :=
    if t1.take 6 = "public".toList then (6, t1.drop 6)
    else if t1.take 7 = "private".toList then (7, t1.drop 7)
    else if t1.take 9 = "protected".toList then (9, t1.drop 9)
    else (0, t1)
  let ws2 := kw.2.takeWhile goIsSpace
  let t3 := kw.2.drop ws2.length
  if t3.take 8 = "function".toList then
    let t4 := t3.drop 8
    let ws3 := t4.takeWhile goIsSpace
    if ws3 = [] then none
    else
      let t5 := t4.drop ws3.length
      let name := t5.takeWhile isWordChar
      if name = [] then none
      else
        let t6 := t5.drop name.length
        let ws4 := t6.takeWhile goIsSpace
        match t6.drop ws4.length with
        | '(' :: _ =>
          some (name, ws1.length + kw.1 + ws2.length + 8 + ws3.length + name.length + ws4.length + 1)
        | _ => none
  else none

/-- The Twig block marker regexp, tried at any position. -/
def matchTwigAt (s : GoStr) : Option (GoStr × Nat) :=
  if s.take 2 = "\x7b%".toList then
    let t1 := s.drop 2
    let ws1 := t1.takeWhile goIsSpace
    let t2 := t1.drop ws1.length
    if t2.take 5 = "block".toList then
      let t3 := t2.drop 5
      let ws2 := t3.takeWhile goIsSpace
      if ws2 = [] then none
      else
        let t4 := t3.drop ws2.length
        let name := t4.takeWhile isWordChar
        if name = [] then none
        else
          let t5 := t4.drop name.length
          let ws3 := t5.takeWhile goIsSpace
          if (t5.drop ws3.length).take 2 = "%\x7d".toList then
            some (name, 2 + ws1.length + 5 + ws2.length + name.length + ws3.length + 2)
          else none
    else none
  else none

/-- Backtracking tail of the markdown heading regexp after the hashes: the
mandatory whitespace run is shortened from its greedy maximum until the rest
of the pattern (one or more non-newline characters up to a line end) fits. -/
def headingBT (t : GoStr) : Nat → Option (GoStr × Nat)
  | 0 => none
  | k + 1 =>
    match t.drop (k + 1) with
    | c :: _ =>
      if c ≠ '\n' then
        let text := (t.drop (k + 1)).takeWhile (· ≠ '\n')
        some (text, (k + 1) + text.length)
      else headingBT t k
    | [] => headingBT t k

/-- The markdown heading regexp, tried at a line start: one to six hashes
(a longer run of hashes can never match, since every split leaves a hash
where whitespace is required), then the backtracking tail; the captured
group is the heading text. -/
def matchHeadingAt (s : GoStr) : Option (GoStr × Nat) :=
  let hashes := s.takeWhile (· = '#')
  let r := hashes.length
  if 1 ≤ r ∧ r ≤ 6 then
    (headingBT (s.drop r) ((s.drop r).takeWhile goIsSpace).length).map fun p => (p.1, r + p.2)
  else none

/-- regexp.FindAllStringSubmatchIndex, reduced to what the chunker consumes:
the list of (match start, captured name) pairs. Successive matches do not
overlap; a line-anchored pattern is tried only at positions following a
newline (or the start). The fuel argument is the remaining input's length. -/
def scanMatches (matchAt : GoStr → Option (GoStr × Nat)) (lineAnchored : Bool) :
    Nat → GoStr → Nat → Bool → List (Nat × GoStr)
  | 0, _, _, _ => []
  | _ + 1, [], _, _ => []
  | fuel + 1, c :: rest, pos, atLS =>
    if !lineAnchored || atLS then
      match matchAt (c :: rest) with
      | some (name, len) =>
        (pos, name) :: scanMatches matchAt lineAnchored fuel ((c :: rest).drop len) (pos + len) false
      | none => scanMatches matchAt lineAnchored fuel rest (pos + 1) (c == '\n')
    else scanMatches matchAt lineAnchored fuel rest (pos + 1) (c == '\n')

/-- All class-definition matches in a PHP file. -/
def findClassMatches (content : GoStr) : List (Nat × GoStr) :=
  scanMatches matchClassAt true content.length content 0 true

/-- All function-definition matches inside one class body. -/
def findFuncMatches (classContent : GoStr) : List (Nat × GoStr) :=
  scanMatches matchFuncAt true classContent.length classContent 0 true

/-- All Twig block-marker matches. -/
def findTwigBlockMatches (content : GoStr) : List (Nat × GoStr) :=
  scanMatches matchTwigAt false content.length content 0 true

/-- All markdown heading matches. -/
def findHeadingMatches (content : GoStr) : List (Nat × GoStr) :=
  scanMatches matchHeadingAt true content.length content 0 true

/-- Pair every match with the end of its segment: the next match's start, or
the total length for the last match (the index arithmetic each chunker
repeats on i and i+1). -/
def segmentsOf : List (Nat × GoStr) → Nat → List (Nat × Nat × GoStr)
  | [], _ => []
  | (p, name) :: rest, total =>
    (p, (match rest with | [] => total | (q, _) :: _ => q), name) :: segmentsOf rest total

/-- Sequence a chunk-producing step over a list, stopping at the first error
and concatenating the produced chunks (the append-inside-a-loop shape of the
Go chunkers). -/
def exceptConcatMap {α β ε : Type} (f : α → Except ε (List β)) : List α → Except ε (List β)
  | [] => Except.ok []
  | a :: as =>
    match f a with
    | Except.error e => Except.error e
    | Except.ok bs =>
      match exceptConcatMap f as with
      | Except.error e => Except.error e
      | Except.ok rest => Except.ok (bs ++ rest)

/-- One function segment inside a class, from chunkPHP: a function within the
size budget becomes one Class::function chunk; a larger one is split by
chunkBySize with an index suffix appended to each sub-chunk's symbol. -/
def phpFuncChunk (path : GoStr) (maxSize : Nat) (className classContent : GoStr)
    (seg : Nat × Nat × GoStr) : Except GoStr (List Chunk) :=
  let funcContent := goSlice classContent seg.1 seg.2.1
  let funcName := seg.2.2
  if funcContent.length ≤ maxSize then
    Except.ok [{ path := path, language := "PHP".toList,
                 symbol := className ++ "::".toList ++ funcName,
                 component := getComponent path, content := trimSpace funcContent,
                 type := getFileType path }]
  else
    match chunkBySize path funcContent maxSize "PHP".toList (getFileType path) with
    | Except.error e => Except.error e
    | Except.ok subChunks =>
      Except.ok (subChunks.mapIdx fun k sc =>
        { sc with symbol := className ++ "::".toList ++ funcName ++ ['#'] ++ (toString k).toList })

/-- One class segment, from chunkPHP: a class with no detected functions, or
one under the size budget, becomes one class-named chunk; otherwise each
function becomes its own segment. -/
def phpClassChunks (path : GoStr) (maxSize : Nat) (content : GoStr)
    (seg : Nat × Nat × GoStr) : Except GoStr (List Chunk) :=
  let className := seg.2.2
  let classContent := goSlice content seg.1 seg.2.1
  let funcMatches := findFuncMatches classContent
  if funcMatches = [] ∨ classContent.length < maxSize then
    Except.ok [{ path := path, language := "PHP".toList, symbol := className,
                 component := getComponent path, content := trimSpace classContent,
                 type := getFileType path }]
  else exceptConcatMap (phpFuncChunk path maxSize className classContent)
         (segmentsOf funcMatches classContent.length)

/-- chunkPHP from chunker.go. -/
def chunkPHP (rules : RAGConfig) (path content : GoStr) : Except GoStr (List Chunk) :=
  let maxSize := rules.Chunking.PHP.MaxSize
  let classMatches := findClassMatches content
  if classMatches = [] then chunkBySize path content maxSize "PHP".toList "code".toList
  else exceptConcatMap (phpClassChunks path maxSize content) (segmentsOf classMatches content.length)

/-- chunkJavaScript from chunker.go: plain size-based chunking. -/
def chunkJavaScript (rules : RAGConfig) (path content : GoStr) : Except GoStr (List Chunk) :=
  chunkBySize path content rules.Chunking.JavaScript.MaxSize (detectLanguage path) (getFileType path)

/-- chunkTwig from chunker.go. -/
def chunkTwig (rules : RAGConfig) (path content : GoStr) : Except GoStr (List Chunk) :=
  let maxSize := rules.Chunking.Twig.MaxSize
  if content.length ≤ maxSize then
    Except.ok [{ path := path, language := "Twig".toList, symbol := [],
                 component := getComponent path, content := content, type := "code".toList }]
  else
    let ms := findTwigBlockMatches content
    if ms = [] then chunkBySize path content maxSize "Twig".toList "code".toList
    else
      Except.ok ((segmentsOf ms content.length).map fun seg =>
        { path := path, language := "Twig".toList, symbol := seg.2.2,
          component := getComponent path, content := trimSpace (goSlice content seg.1 seg.2.1),
          type := "code".toList })

/-- A YAML line that starts a new top-level key. -/
def isTopLevelKey (line : GoStr) : Bool :=
  match line with
  | [] => false
  | c :: _ => decide (c ≠ ' ' ∧ c ≠ '\t') && line.contains ':'

/-- The chunk emitted for one YAML top-level section. -/
def yamlChunk (path key : GoStr) (acc : List GoStr) : Chunk :=
  { path := path, language := "YAML".toList, symbol := key,
    component := getComponent path, content := trimSpace (accStr acc), type := getFileType path }

/-- The scanner loop of chunkYAML. -/
def yamlLoop (path : GoStr) : List GoStr → List GoStr → GoStr → List Chunk
  | [], acc, key => if 0 < (accStr acc).length then [yamlChunk path key acc] else []
  | line :: ls, acc, key =>
    if isTopLevelKey line then
      let key' := trimSpace (line.takeWhile (· ≠ ':'))
      if 0 < (accStr acc).length then
        yamlChunk path key acc :: yamlLoop path ls [line] key'
      else yamlLoop path ls (acc ++ [line]) key'
    else yamlLoop path ls (acc ++ [line]) key

/-- chunkYAML from chunker.go. -/
def chunkYAML (rules : RAGConfig) (path content : GoStr) : Except GoStr (List Chunk) :=
  let maxSize := rules.Chunking.YAML.MaxSize
  if content.length ≤ maxSize then
    Except.ok [{ path := path, language := "YAML".toList, symbol := [],
                 component := getComponent path, content := content, type := getFileType path }]
  else Except.ok (yamlLoop path (scanLines content) [] [])

/-- A Makefile line that starts a new target. -/
def isMakeTarget (line : GoStr) : Bool :=
  match line with
  | [] => false
  | c :: _ => decide (c ≠ ' ' ∧ c ≠ '\t') && line.contains ':' && !("#".toList.isPrefixOf line)

/-- The chunk emitted for one Makefile target. -/
def makeChunk (path key : GoStr) (acc : List GoStr) : Chunk :=
  { path := path, language := "Makefile".toList, symbol := key,
    component := "build".toList, content := trimSpace (accStr acc), type := "config".toList }

/-- The scanner loop of chunkMakefile. -/
def makeLoop (path : GoStr) : List GoStr → List GoStr → GoStr → List Chunk
  | [], acc, key => if 0 < (accStr acc).length then [makeChunk path key acc] else []
  | line :: ls, acc, key =>
    if isMakeTarget line then
      let key' := trimSpace (line.takeWhile (· ≠ ':'))
      if 0 < (accStr acc).length then
        makeChunk path key acc :: makeLoop path ls [line] key'
      else makeLoop path ls (acc ++ [line]) key'
    else makeLoop path ls (acc ++ [line]) key

/-- chunkMakefile from chunker.go. -/
def chunkMakefile (path content : GoStr) : Except GoStr (List Chunk) :=
  Except.ok (makeLoop path (scanLines content) [] [])

/-- A docker-compose line that names a service: exactly two spaces of
indentation and a colon. -/
def isServiceLine (line : GoStr) : Bool :=
  "  ".toList.isPrefixOf line && !("    ".toList.isPrefixOf line) && line.contains ':'

/-- Whether the scanner stays inside the services section after this line. -/
def staysInServices (line : GoStr) : Bool :=
  match line with
  | [] => true
  | c :: _ => !(decide (c ≠ ' ' ∧ c ≠ '\t'))

/-- The chunk emitted for one docker-compose service. -/
def composeChunk (path key : GoStr) (acc : List GoStr) : Chunk :=
  { path := path, language := "YAML".toList, symbol := key,
    component := "docker".toList, content := trimSpace (accStr acc), type := "config".toList }

/-- The scanner loop of chunkDockerCompose. -/
def composeLoop (path : GoStr) : List GoStr → Bool → List GoStr → GoStr → List Chunk
  | [], _, acc, key => if 0 < (accStr acc).length then [composeChunk path key acc] else []
  | line :: ls, inServices, acc, key =>
    if "services:".toList.isPrefixOf line then composeLoop path ls true acc key
    else if inServices then
      if isServiceLine line then
        let key' := trimSpace ((trimSpace line).takeWhile (· ≠ ':'))
        if 0 < (accStr acc).length then
          composeChunk path key acc :: composeLoop path ls (staysInServices line) [line] key'
        else composeLoop path ls (staysInServices line) (acc ++ [line]) key'
      else composeLoop path ls (staysInServices line) (acc ++ [line]) key
    else composeLoop path ls false acc key

/-- chunkDockerCompose from chunker.go. -/
def chunkDockerCompose (path content : GoStr) : Except GoStr (List Chunk) :=
  Except.ok (composeLoop path (scanLines content) false [] [])

/-- chunkMarkdown from chunker.go. -/
def chunkMarkdown (path content : GoStr) : Except GoStr (List Chunk) :=
  let ms := findHeadingMatches content
  if ms = [] then
    Except.ok [{ path := path, language := "Markdown".toList, symbol := [],
                 component := "docs".toList, content := content, type := "doc".toList }]
  else
    Except.ok ((segmentsOf ms content.length).map fun seg =>
      { path := path, language := "Markdown".toList, symbol := seg.2.2,
        component := "docs".toList, content := trimSpace (goSlice content seg.1 seg.2.1),
        type := "doc".toList })

/-- chunkDocument from chunker.go. -/
def chunkDocument (path content : GoStr) : Except GoStr (List Chunk) :=
  if ".md".toList.isSuffixOf path then chunkMarkdown path content
  else chunkBySize path content 1500 "Text".toList "doc".toList

/-- chunkGeneric from chunker.go. -/
def chunkGeneric (rules : RAGConfig) (path content : GoStr) : Except GoStr (List Chunk) :=
  chunkBySize path content rules.Chunking.Generic.MaxSize (detectLanguage path) (getFileType path)

/-- ChunkFile from chunker.go: dispatch by extension and basename. -/
def ChunkFile (rules : RAGConfig) (path content : GoStr) : Except GoStr (List Chunk) :=
  let ext := toLowerStr (filepathExt path)
  let basename := filepathBase path
  if ext = ".php".toList then chunkPHP rules path content
  else if ext = ".twig".toList then chunkTwig rules path content
  else if ext = ".yaml".toList ∨ ext = ".yml".toList then chunkYAML rules path content
  else if basename = "Makefile".toList then chunkMakefile path content
  else if basename = "docker-compose.yml".toList ∨ basename = "docker-compose.yaml".toList ∨
          basename = "compose.yml".toList ∨ basename = "compose.yaml".toList then
    chunkDockerCompose path content
  else if ext = ".js".toList ∨ ext = ".ts".toList ∨ ext = ".jsx".toList ∨ ext = ".tsx".toList then
    chunkJavaScript rules path content
  else if ext = ".md".toList ∨ ext = ".txt".toList then chunkDocument path content
  else chunkGeneric rules path content

/-- embeddings.StubGenerator: carries only the vector dimension. -/
structure StubGenerator where
  dimension : Nat
deriving DecidableEq, Repr

/-- embeddings.NewStubGenerator: dimension 0 falls back to 1536. -/
def NewStubGenerator (dimension : Nat) : StubGenerator :=
  if dimension = 0 then ⟨1536⟩ else ⟨dimension⟩

/-- The linear congruential step of StubGenerator.Embed, on uint64. -/
def lcgNext (seed : Nat) : Nat := (seed * 1103515245 + 12345) % 2 ^ 64

/-- One component of the raw stub vector: float32(seed % 10000) / 10000,
recentered around zero; float arithmetic is idealised as exact rationals. -/
def stubComponent (seed : Nat) : ℚ := ((seed % 10000 : Nat) / 10000 - 0.5) * 2

/-- The raw (pre-normalisation) stub vector: the seed is advanced before each
component is drawn, as in the Go loop. -/
def stubVector : Nat → Nat → List ℚ
  | 0, _ => []
  | n + 1, seed =>
    let seed' := lcgNext seed
    stubComponent seed' :: stubVector n seed'

/-- Sum of squared components over the rationals. -/
def sumSq (v : List ℚ) : ℚ := (v.map fun x => x * x).sum

/-- Sum of squared components over the reals. -/
noncomputable def sumSqR (v : List ℝ) : ℝ := (v.map fun x => x * x).sum

/-- The normalisation step of StubGenerator.Embed: divide by the magnitude
when it is positive (real arithmetic stands in for float32). -/
noncomputable def stubNormalize (v : List ℚ) : List ℝ :=
  if 0 < Real.sqrt (sumSq v) then v.map fun (x : ℚ) => (x : ℝ) / Real.sqrt (sumSq v)
  else v.map fun (x : ℚ) => (x : ℝ)

/-- StubGenerator.Embed. The text argument enters only through the first
eight bytes of its sha256 digest; that digest is abstracted into the seed
argument, so determinism of the hash is inherited by the model. The Go
function's error result is always nil, which the Except mirrors. -/
noncomputable def StubGeneratorEmbed (g : StubGenerator) (seed : Nat) :
    Except String (List ℝ) :=
  Except.ok (stubNormalize (stubVector g.dimension seed))

/-- One stored row of the chunks table (internal/database/schema.go). The
jsonb metadata column is modelled as its key-value pairs and timestamps as
abstract instants. -/
structure ChunkRow where
  id : Nat
  project_id : String
  source : String
  type : String
  path : String
  language : Option String
  symbol : Option String
  component : Option String
  content : String
  content_hash : String
  embedding : List ℚ
  embedding_model : String
  metadata : List (String × String)
  created_at : Nat
  updated_at : Nat
  commit_sha : Option String
deriving DecidableEq, Repr

/-- The dedup key constrained UNIQUE by the schema. -/
def chunkKey (r : ChunkRow) : String × String := (r.project_id, r.content_hash)

/-- All stored rows have pairwise distinct dedup keys. -/
def UniqueKeys (rows : List ChunkRow) : Prop :=
  rows.Pairwise fun a b => chunkKey a ≠ chunkKey b

/-- Whether a row collides with the given dedup key. -/
def rowKeyMatches (projectID contentHash : String) (r : ChunkRow) : Bool :=
  decide (r.project_id = projectID ∧ r.content_hash = contentHash)

/-- The INSERT .. ON CONFLICT (project_id, content_hash) DO UPDATE statement
of storeChunk, as a table transformation: on collision the matching row gets
the new embedding, embedding_model and a fresh updated_at (the schema's
trigger and the SET clause agree on updated_at); otherwise the row is
appended with both timestamps defaulted to now. -/
def upsertChunkRow (rows : List ChunkRow) (newRow : ChunkRow) (now : Nat) : List ChunkRow :=
  if rows.any (rowKeyMatches newRow.project_id newRow.content_hash) then
    rows.map fun r =>
      if rowKeyMatches newRow.project_id newRow.content_hash r then
        { r with updated_at := now, embedding := newRow.embedding,
                 embedding_model := newRow.embedding_model }
      else r
  else rows ++ [{ newRow with created_at := now, updated_at := now }]

/-- nullString from indexer.go: empty strings become SQL NULL. -/
def nullString (s : String) : Option String := if s = "" then none else some s

/-- A fresh SERIAL id for an insert. -/
def freshId (rows : List ChunkRow) : Nat := rows.foldr (fun r acc => max (r.id + 1) acc) 1

/-- The metadata map assembled by storeChunk. -/
def chunkMetadata (chunk : Chunk) : List (String × String) :=
  [("file_type", String.mk chunk.type)]
    ++ (if chunk.symbol ≠ [] then [("symbol", String.mk chunk.symbol)] else [])
    ++ (if chunk.component ≠ [] then [("component", String.mk chunk.component)] else [])

/-- storeChunk from indexer.go: embed the content (failure aborts this chunk),
hash it, and run the upsert. The embedding provider and sha256-hex digest are
abstract function parameters. -/
def storeChunk (embed : String → Except String (List ℚ)) (hashHex : String → String)
    (rows : List ChunkRow) (projectID embeddingModel : String) (chunk : Chunk)
    (commitSHA : String) (now : Nat) : Except String (List ChunkRow) :=
  match embed (String.mk chunk.content) with
  | Except.error e => Except.error ("failed to generate embedding: " ++ e)
  | Except.ok embedding =>
    let contentHash := hashHex (String.mk chunk.content)
    Except.ok (upsertChunkRow rows
      { id := freshId rows, project_id := projectID, source := "repo",
        type := String.mk chunk.type, path := String.mk chunk.path,
        language := some (String.mk chunk.language),
        symbol := nullString (String.mk chunk.symbol),
        component := nullString (String.mk chunk.component),
        content := String.mk chunk.content, content_hash := contentHash,
        embedding := embedding, embedding_model := embeddingModel,
        metadata := chunkMetadata chunk, created_at := now, updated_at := now,
        commit_sha := nullString commitSHA } now)

/-- The outcome of the per-file body of Indexer.Index: the table after the
file's chunks were stored, the number of chunks stored, and whether the
failed-to-chunk warn-and-skip branch was taken. -/
structure FilePass where
  rows : List ChunkRow
  storedCount : Nat
  chunkFailed : Bool
deriving Repr

/-- One iteration of the store loop inside Indexer.Index: a failed store is
warned and skipped, a successful one replaces the table and counts. -/
def storeStep (embed : String → Except String (List ℚ)) (hashHex : String → String)
    (projectID embeddingModel commitSHA : String) (now : Nat)
    (acc : FilePass) (chunk : Chunk) : FilePass :=
  match storeChunk embed hashHex acc.rows projectID embeddingModel chunk commitSHA now with
  | Except.error _ => acc
  | Except.ok rows' => ⟨rows', acc.storedCount + 1, acc.chunkFailed⟩

/-- The per-file body of Indexer.Index: chunk the file (an error would warn
and skip it), then store each chunk, warning and continuing on a failed
store. -/
def indexFile (rules : RAGConfig) (embed : String → Except String (List ℚ))
    (hashHex : String → String) (projectID embeddingModel commitSHA : String)
    (rows : List ChunkRow) (path content : GoStr) (now : Nat) : FilePass :=
  match ChunkFile rules path content with
  | Except.error _ => ⟨rows, 0, true⟩
  | Except.ok chunks =>
    chunks.foldl (storeStep embed hashHex projectID embeddingModel commitSHA now) ⟨rows, 0, false⟩

/-- A row of the result set of the two read queries (struct SearchResult in
tools.go, lowercased). -/
structure SearchResult where
  id : Nat
  path : String
  type : String
  language : String
  symbol : String
  content : String
  similarity : ℚ
deriving DecidableEq, Repr

/-- One output row of searchSimilarChunks: the COALESCEd columns plus the
similarity expression 1 - (embedding <=> query). -/
def rowToSearchResult (dist : List ℚ → List ℚ → ℚ) (queryEmbedding : List ℚ)
    (r : ChunkRow) : SearchResult :=
  { id := r.id, path := r.path, type := r.type, language := r.language.getD "",
    symbol := r.symbol.getD "", content := r.content,
    similarity := 1 - dist r.embedding queryEmbedding }

/-- One output row of getFileContext: similarity is the literal 0 the query
selects. -/
def rowToContextResult (r : ChunkRow) : SearchResult :=
  { id := r.id, path := r.path, type := r.type, language := r.language.getD "",
    symbol := r.symbol.getD "", content := r.content, similarity := 0 }

/-- searchSimilarChunks from tools.go: the SELECT restricted to the project,
ordered by distance to the query vector ascending (ties kept in row order, as
a stable sort), truncated to LIMIT. dist is the store's cosine-distance
operator, taken as a black box; Postgres rejects a negative LIMIT. -/
def searchSimilarChunks (dist : List ℚ → List ℚ → ℚ) (rows : List ChunkRow)
    (projectID : String) (queryEmbedding : List ℚ) (limit : Int) :
    Except String (List SearchResult) :=
  if limit < 0 then Except.error "LIMIT must not be negative"
  else
    Except.ok ((((rows.filter fun r => decide (r.project_id = projectID)).mergeSort
        fun a b => decide (dist a.embedding queryEmbedding ≤ dist b.embedding queryEmbedding)).take
          limit.toNat).map (rowToSearchResult dist queryEmbedding))

/-- getFileContext from tools.go: with a symbol, the exact-symbol rows
followed by the same-path rows whose (non-NULL) symbol differs, the whole
UNION truncated to LIMIT; without a symbol, the path's rows in storage
order truncated to LIMIT. -/
def getFileContext (rows : List ChunkRow) (projectID path symbol : String)
    (limit : Int) : Except String (List SearchResult) :=
  if limit < 0 then Except.error "LIMIT must not be negative"
  else
    Except.ok
      (if symbol ≠ "" then
        (((rows.filter fun r =>
              decide (r.project_id = projectID ∧ r.path = path ∧ r.symbol = some symbol)) ++
          (rows.filter fun r =>
              decide (r.project_id = projectID ∧ r.path = path) &&
                (match r.symbol with
                 | some s => decide (s ≠ symbol)
                 | none => false))).take limit.toNat).map rowToContextResult
      else
        ((rows.filter fun r =>
            decide (r.project_id = projectID ∧ r.path = path)).take limit.toNat).map
          rowToContextResult)

/-- A decoded JSON value inside the arguments object of tools/call,
restricted to the shapes the Go type assertions distinguish: a string, a
number (float64, idealised as an exact rational) or anything else. -/
inductive JVal where
  | str (s : String)
  | num (q : ℚ)
  | other
deriving DecidableEq

/-- The arguments object of a tools/call request. -/
abbrev Args := List (String × JVal)

/-- Lookup in the arguments map. -/
def lookupArg (args : Args) (key : String) : Option JVal :=
  (args.find? fun kv => kv.1 = key).map (·.2)

/-- Go int(l) on a float64: truncation toward zero. -/
def goIntOfFloat (q : ℚ) : Int := if q < 0 then ⌈q⌉ else ⌊q⌋

/-- The limit computed by handleSearch: default 5; a numeric argument is
truncated to an int and clamped from above to 20. -/
def searchLimit (args : Args) : Int :=
  match lookupArg args "limit" with
  | some (JVal.num l) =>
    let limit := goIntOfFloat l
    if limit > 20 then 20 else limit
  | _ => 5

/-- The limit computed by handleGetContext: default 3, no clamping. -/
def contextLimit (args : Args) : Int :=
  match lookupArg args "limit" with
  | some (JVal.num l) => goIntOfFloat l
  | _ => 3

/-- The payload of a successful tool call. -/
inductive ToolResult where
  | search (query : String) (results : List SearchResult)
  | context (path symbol : String) (results : List SearchResult)
  | info
deriving DecidableEq

/-- handleSearch from tools.go: a missing, non-string or empty query is
rejected; then the query is embedded and searchSimilarChunks is run with the
computed limit. The lazily initialised generator and database connection are
abstracted into the embed function and the rows list (their setup errors are
the embed function's error case). -/
def handleSearch (embed : String → Except String (List ℚ))
    (dist : List ℚ → List ℚ → ℚ) (rows : List ChunkRow) (projectID : String)
    (args : Args) : Except String ToolResult :=
  match lookupArg args "query" with
  | some (JVal.str query) =>
    if query = "" then Except.error "query is required"
    else
      match embed query with
      | Except.error e => Except.error ("failed to generate embedding: " ++ e)
      | Except.ok queryEmbedding =>
        match searchSimilarChunks dist rows projectID queryEmbedding (searchLimit args) with
        | Except.error e => Except.error ("search failed: " ++ e)
        | Except.ok results => Except.ok (ToolResult.search query results)
  | _ => Except.error "query is required"

/-- handleGetContext from tools.go. -/
def handleGetContext (rows : List ChunkRow) (projectID : String) (args : Args) :
    Except String ToolResult :=
  match lookupArg args "path" with
  | some (JVal.str path) =>
    if path = "" then Except.error "path is required"
    else
      let symbol := match lookupArg args "symbol" with
        | some (JVal.str s) => s
        | _ => ""
      match getFileContext rows projectID path symbol (contextLimit args) with
      | Except.error e => Except.error ("failed to get context: " ++ e)
      | Except.ok results => Except.ok (ToolResult.context path symbol results)
  | _ => Except.error "path is required"

/-- ToolHandler.CallTool from tools.go; handleProjectInfo always returns a
payload (its connectivity probes land in the payload, never in the error). -/
def CallTool (embed : String → Except String (List ℚ)) (dist : List ℚ → List ℚ → ℚ)
    (rows : List ChunkRow) (projectID : String) (name : String) (args : Args) :
    Except String ToolResult :=
  if name = "search" then handleSearch embed dist rows projectID args
  else if name = "get_context" then handleGetContext rows projectID args
  else if name = "project_info" then Except.ok ToolResult.info
  else Except.error ("unknown tool: " ++ name)

/-- An MCP error object. -/
structure MCPError where
  code : Int
  message : String
deriving DecidableEq

/-- A JSON-RPC id (an arbitrary JSON value in Go; the shapes that occur). -/
inductive RId where
  | null
  | str (s : String)
  | num (q : ℚ)
deriving DecidableEq

/-- The result payload of a response. -/
inductive RVal where
  | initResult
  | toolsList
  | tool (r : ToolResult)
deriving DecidableEq

/-- An MCP response envelope. -/
structure MCPResponse where
  jsonrpc : String
  id : RId
  result : Option RVal
  error : Option MCPError
deriving DecidableEq

/-- The params field of a tools/call request after the marshal/unmarshal
round trip of handleToolsCall: either it failed to decode into the
name/arguments struct, or it produced a name and an arguments map (an absent
params decodes as the zero value: empty name, no arguments). -/
inductive ParamsParse where
  | malformed
  | parsed (name : String) (arguments : Args)
deriving DecidableEq

/-- One line read by Server.Run: either json.Unmarshal rejects it, or it
decodes into a request with an id, a method and (for tools/call) params. -/
inductive InputLine where
  | malformed (msg : String)
  | request (id : RId) (method : String) (params : ParamsParse)
deriving DecidableEq

/-- handleInitialize: a fixed result payload. -/
def handleInitialize (id : RId) : MCPResponse :=
  { jsonrpc := "2.0", id := id, result := some RVal.initResult, error := none }

/-- handleToolsList: the static tool descriptors. -/
def handleToolsList (id : RId) : MCPResponse :=
  { jsonrpc := "2.0", id := id, result := some RVal.toolsList, error := none }

/-- handleToolsCall from server.go: malformed params are code -32602; a tool
error is wrapped at code -32000; otherwise the tool result is returned. -/
def handleToolsCall (callTool : String → Args → Except String ToolResult)
    (id : RId) (params : ParamsParse) : MCPResponse :=
  match params with
  | ParamsParse.malformed =>
    { jsonrpc := "2.0", id := id, result := none,
      error := some ⟨-32602, "Invalid params"⟩ }
  | ParamsParse.parsed name arguments =>
    match callTool name arguments with
    | Except.error e =>
      { jsonrpc := "2.0", id := id, result := none, error := some ⟨-32000, e⟩ }
    | Except.ok r =>
      { jsonrpc := "2.0", id := id, result := some (RVal.tool r), error := none }

/-- Server.handleRequest: dispatch on the method name; an unknown method is
code -32601. -/
def handleRequest (callTool : String → Args → Except String ToolResult)
    (id : RId) (method : String) (params : ParamsParse) : MCPResponse :=
  if method = "initialize" then handleInitialize id
  else if method = "tools/list" then handleToolsList id
  else if method = "tools/call" then handleToolsCall callTool id params
  else
    { jsonrpc := "2.0", id := id, result := none,
      error := some ⟨-32601, "Method not found: " ++ method⟩ }

/-- Server.sendError: the parse-error answer, code -32603, sent with the
empty id the Go code passes. -/
def sendError (msg : String) : MCPResponse :=
  { jsonrpc := "2.0", id := RId.str "", result := none, error := some ⟨-32603, msg⟩ }

/-- The response Server.Run produces for one input line. -/
def processLine (callTool : String → Args → Except String ToolResult) :
    InputLine → MCPResponse
  | InputLine.malformed msg => sendError ("invalid JSON: " ++ msg)
  | InputLine.request id method params => handleRequest callTool id method params

/-- The read loop of Server.Run over a whole input stream: one response per
line, in order; no line terminates the loop. -/
def processLines (callTool : String → Args → Except String ToolResult)
    (lines : List InputLine) : List MCPResponse :=
  lines.map (processLine callTool)

deriving instance DecidableEq for Except

/-- A response carries exactly one of result and error. -/
def exactlyOneOf (resp : MCPResponse) : Prop :=
  (resp.result.isSome = true ∧ resp.error = none) ∨
    (resp.result = none ∧ resp.error.isSome = true)

/-- A RAG configuration giving every file type the same max chunk size. -/
def exRules (n : Nat) : RAGConfig := ⟨⟨⟨n⟩, ⟨n⟩, ⟨n⟩, ⟨n⟩, ⟨n⟩⟩⟩

/-- A PHP file with one class containing two small functions. -/
def phpTwoFuncFile : GoStr :=
  ("class Foo \x7b\n  public function a() \x7b\n  \x7d\n" ++
   "  public function b() \x7b\n  \x7d\n\x7d\n").toList

/-- A stored row used by the concrete upsert scenarios. -/
def rowA : ChunkRow :=
  { id := 1, project_id := "p", source := "repo", type := "code", path := "a.php",
    language := some "PHP", symbol := some "Foo", component := none, content := "x",
    content_hash := "h1", embedding := [], embedding_model := "m0", metadata := [],
    created_at := 10, updated_at := 10, commit_sha := none }

/-- A second stored row with a different dedup key. -/
def rowB : ChunkRow := { rowA with id := 2, content_hash := "h2", symbol := some "Bar" }

/-- An incoming row that collides with rowA's dedup key. -/
def rowA' : ChunkRow :=
  { rowA with id := 9, embedding := [1], embedding_model := "m1", created_at := 99, updated_at := 99 }

/-- C3: the protocol server answers every input line with exactly one
response carrying exactly one of result and error, and keeps reading
(the loop is a per-line map, so no request ends it); a malformed line, an
unknown method, malformed tools/call params and a failing tool call produce
error responses whose codes -32603, -32601, -32602 and -32000 are pairwise
distinct. -/
theorem protocol_responses_and_error_codes :
    (∀ ct (lines : List InputLine), (processLines ct lines).length = lines.length) ∧
    (∀ ct line, exactlyOneOf (processLine ct line)) ∧
    (∀ ct msg, (processLine ct (InputLine.malformed msg)).error =
      some ⟨-32603, "invalid JSON: " ++ msg⟩) ∧
    (∀ ct id method params, method ≠ "initialize" → method ≠ "tools/list" →
      method ≠ "tools/call" →
      (processLine ct (InputLine.request id method params)).error =
        some ⟨-32601, "Method not found: " ++ method⟩) ∧
    (∀ ct id,
      (processLine ct (InputLine.request id "tools/call" ParamsParse.malformed)).error =
        some ⟨-32602, "Invalid params"⟩) ∧
    (∀ ct id toolName args e, ct toolName args = Except.error e →
      (processLine ct (InputLine.request id "tools/call"
        (ParamsParse.parsed toolName args))).error = some ⟨-32000, e⟩) ∧
    List.Pairwise (· ≠ ·) ([-32603, -32601, -32602, -32000] : List Int) := by
  refine ⟨?_, ?_, ?_, ?_, ?_, ?_, ?_⟩
  · intro ct lines; simp [processLines]
  · intro ct line
    cases line with
    | malformed msg => exact Or.inr ⟨rfl, rfl⟩
    | request id method params =>
      simp only [processLine, handleRequest]
      by_cases h1 : method = "initialize"
      · simp [h1, handleInitialize, exactlyOneOf]
      by_cases h2 : method = "tools/list"
      · simp [h1, h2, handleToolsList, exactlyOneOf]
      by_cases h3 : method = "tools/call"
      · simp only [h1, h2, h3, if_false, if_true, if_neg, if_pos]
        cases params with
        | malformed => simp [handleToolsCall, exactlyOneOf]
        | parsed toolName args =>
          cases h : ct toolName args with
          | error e => simp [handleToolsCall, h, exactlyOneOf]
          | ok r => simp [handleToolsCall, h, exactlyOneOf]
      · simp [h1, h2, h3, exactlyOneOf]
  · intro ct msg; rfl
  · intro ct id method params h1 h2 h3
    simp [processLine, handleRequest, h1, h2, h3]
  · intro ct id; rfl
  · intro ct id toolName args e h
    simp [processLine, handleRequest, handleToolsCall, h]
  · decide

/-- Witness for the hypothesis-bearing parts of the protocol theorem: the
unknown method x/y and a tool handler that fails. -/
theorem protocol_responses_witness :
    (processLine (fun _ _ => Except.error "boom")
      (InputLine.request RId.null "x/y" ParamsParse.malformed)).error =
        some ⟨-32601, "Method not found: " ++ "x/y"⟩ ∧
    (processLine (fun _ _ => Except.error "boom")
      (InputLine.request RId.null "tools/call"
        (ParamsParse.parsed "search" []))).error = some ⟨-32000, "boom"⟩ := by
  constructor
  · exact protocol_responses_and_error_codes.2.2.2.1 _ RId.null "x/y"
      ParamsParse.malformed (by decide) (by decide) (by decide)
  · exact protocol_responses_and_error_codes.2.2.2.2.2.1 _ RId.null "search" [] "boom" rfl

/-- C4: a tools/call of search with an empty (or missing) query is answered
with an error envelope, not a crash; a numeric limit argument is silently
clamped so at most 20 is used, and an absent limit defaults to 5. -/
theorem search_validation_and_limit_clamp :
    (∀ embed dist rows projectID id args,
      lookupArg args "query" = some (JVal.str "") →
      processLine (CallTool embed dist rows projectID)
          (InputLine.request id "tools/call" (ParamsParse.parsed "search" args)) =
        { jsonrpc := "2.0", id := id, result := none,
          error := some ⟨-32000, "query is required"⟩ }) ∧
    (∀ embed dist rows projectID args,
      lookupArg args "query" = none →
      handleSearch embed dist rows projectID args = Except.error "query is required") ∧
    (∀ args l, lookupArg args "limit" = some (JVal.num l) → searchLimit args ≤ 20) ∧
    (∀ args, lookupArg args "limit" = none → searchLimit args = 5) := by
  refine ⟨?_, ?_, ?_, ?_⟩
  · intro embed dist rows projectID id args h
    simp [processLine, handleRequest, handleToolsCall, CallTool, handleSearch, h]
  · intro embed dist rows projectID args h
    simp [handleSearch, h]
  · intro args l h
    simp only [searchLimit, h]
    split
    · exact le_refl 20
    · omega
  · intro args h; simp [searchLimit, h]

/-- Witness for the search validation theorem at concrete arguments. -/
theorem search_validation_witness :
    processLine (CallTool (fun _ => Except.ok []) (fun _ _ => 0) [] "p")
        (InputLine.request RId.null "tools/call"
          (ParamsParse.parsed "search" [("query", JVal.str "")])) =
      { jsonrpc := "2.0", id := RId.null, result := none,
        error := some ⟨-32000, "query is required"⟩ } ∧
    searchLimit [("limit", JVal.num 50)] ≤ 20 ∧
    searchLimit [("query", JVal.str "hi")] = 5 := by
  refine ⟨?_, ?_, ?_⟩
  · exact search_validation_and_limit_clamp.1 _ _ _ _ _ _ rfl
  · exact search_validation_and_limit_clamp.2.2.1 _ 50 rfl
  · exact search_validation_and_limit_clamp.2.2.2 _ rfl

/-- The raw stub vector always has the requested dimension. -/
theorem stubVector_length (n : Nat) : ∀ seed, (stubVector n seed).length = n := by
  induction n with
  | zero => intro seed; rfl
  | succ n ih => intro seed; simp [stubVector, ih]

/-- Sums of squares of rationals are nonnegative. -/
theorem sumSq_nonneg (v : List ℚ) : 0 ≤ sumSq v := by
  induction v with
  | nil => simp [sumSq]
  | cons x xs ih =>
    simp only [sumSq, List.map_cons, List.sum_cons]
    have := mul_self_nonneg x
    simp only [sumSq] at ih
    linarith

/-- Casting a rational vector to the reals preserves the sum of squares. -/
theorem sumSqR_cast (v : List ℚ) :
    sumSqR (v.map fun (x : ℚ) => (x : ℝ)) = (sumSq v : ℝ) := by
  induction v with
  | nil => simp [sumSqR, sumSq]
  | cons x xs ih =>
    have h1 : sumSqR ((x :: xs).map fun (x : ℚ) => (x : ℝ)) =
        (x : ℝ) * (x : ℝ) + sumSqR (xs.map fun (x : ℚ) => (x : ℝ)) := by
      simp [sumSqR]
    have h2 : (sumSq (x :: xs) : ℝ) = (x : ℝ) * (x : ℝ) + (sumSq xs : ℝ) := by
      have : sumSq (x :: xs) = x * x + sumSq xs := by simp [sumSq]
      rw [this]; push_cast; ring
    rw [h1, ih, h2]

/-- Dividing every component by c divides the sum of squares by c squared. -/
theorem sumSqR_div (v : List ℝ) (c : ℝ) :
    sumSqR (v.map fun x => x / c) = sumSqR v / c ^ 2 := by
  induction v with
  | nil => simp [sumSqR]
  | cons x xs ih =>
    simp only [sumSqR, List.map_cons, List.sum_cons] at *
    rw [ih]; ring

/-- A raw component vanishes exactly when its seed is 5000 modulo 10000. -/
theorem stubComponent_eq_zero_iff (s : Nat) : stubComponent s = 0 ↔ s % 10000 = 5000 := by
  unfold stubComponent
  constructor
  · intro h
    rw [mul_eq_zero] at h
    rcases h with h | h
    · have h1 : ((s % 10000 : Nat) : ℚ) = 5000 := by
        have h05 : (0.5 : ℚ) = 1 / 2 := by norm_num
        rw [h05] at h
        field_simp at h
        linarith
      exact_mod_cast h1
    · norm_num at h
  · intro h
    rw [h]
    norm_num

/-- The uint64 wraparound of the generator commutes with reduction mod 16. -/
theorem lcgNext_mod16 (s : Nat) :
    lcgNext s % 16 = (s * 1103515245 + 12345) % 16 := by
  unfold lcgNext
  exact Nat.mod_mod_of_dvd _ (by norm_num)

/-- Two consecutive generator states cannot both be 5000 modulo 10000: the
first forces state 8 mod 16, whose successor is 1 mod 16 instead of 8. -/
theorem consecutive_seeds_not_both_5000 (s : Nat) (h1 : s % 10000 = 5000) :
    lcgNext s % 10000 ≠ 5000 := by
  intro h2
  have e2 : lcgNext s % 16 = (s * 1103515245 + 12345) % 16 := lcgNext_mod16 s
  omega

/-- A vanishing sum of squares kills the head component and the tail sum. -/
theorem sumSq_cons_eq_zero {x : ℚ} {rest : List ℚ} (h : sumSq (x :: rest) = 0) :
    x = 0 ∧ sumSq rest = 0 := by
  have hx := mul_self_nonneg x
  have hr := sumSq_nonneg rest
  have hsum : sumSq (x :: rest) = x * x + sumSq rest := by simp [sumSq]
  rw [hsum] at h
  have hx0 : x * x = 0 := by linarith
  exact ⟨mul_self_eq_zero.mp hx0, by linarith⟩

/-- For dimension at least two the raw stub vector is never the zero vector,
so its magnitude is positive. -/
theorem stubVector_sumSq_pos (dim seed : Nat) (h : 2 ≤ dim) :
    0 < sumSq (stubVector dim seed) := by
  obtain ⟨n, rfl⟩ : ∃ n, dim = n + 2 := ⟨dim - 2, by omega⟩
  rcases lt_or_eq_of_le (sumSq_nonneg (stubVector (n + 2) seed)) with hlt | heq
  · exact hlt
  have hz : sumSq (stubVector (n + 2) seed) = 0 := heq.symm
  have hstep : stubVector (n + 2) seed =
      stubComponent (lcgNext seed) ::
        stubComponent (lcgNext (lcgNext seed)) :: stubVector n (lcgNext (lcgNext seed)) := by
    show stubVector (n + 1 + 1) seed = _
    rw [stubVector, stubVector]
  rw [hstep] at hz
  obtain ⟨h1, hz2⟩ := sumSq_cons_eq_zero hz
  obtain ⟨h2, _⟩ := sumSq_cons_eq_zero hz2
  exact absurd ((stubComponent_eq_zero_iff _).mp h2)
    (consecutive_seeds_not_both_5000 _ ((stubComponent_eq_zero_iff _).mp h1))

/-- C9: the deterministic stub generator never fails, its vector has exactly
the generator's dimension, its output is a function of the dimension and the
content digest alone (so identical text gives identical vectors), when the
raw magnitude is nonzero the returned vector is unit-normalised (in the
exact-real idealisation of the float arithmetic), and for every dimension of
at least two the magnitude is always nonzero, so the vector is always
unit-normalised. -/
theorem stub_embed_normalized :
    ∀ (g : StubGenerator) (seed : Nat),
      (∃ v, StubGeneratorEmbed g seed = Except.ok v) ∧
      (∀ v, StubGeneratorEmbed g seed = Except.ok v → v.length = g.dimension) ∧
      (∀ g2 : StubGenerator, g2.dimension = g.dimension →
        StubGeneratorEmbed g2 seed = StubGeneratorEmbed g seed) ∧
      (0 < sumSq (stubVector g.dimension seed) →
        ∀ v, StubGeneratorEmbed g seed = Except.ok v → sumSqR v = 1) ∧
      (2 ≤ g.dimension →
        ∀ v, StubGeneratorEmbed g seed = Except.ok v → sumSqR v = 1) := by
  intro g seed
  have hunit : 0 < sumSq (stubVector g.dimension seed) →
      ∀ v, StubGeneratorEmbed g seed = Except.ok v → sumSqR v = 1 := by
    intro hpos v hv
    have hv' : v = stubNormalize (stubVector g.dimension seed) := by
      simpa [StubGeneratorEmbed] using hv.symm
    subst hv'
    set w := stubVector g.dimension seed with hw
    have hposR : (0 : ℝ) < (sumSq w : ℝ) := by exact_mod_cast hpos
    have hsq : 0 < Real.sqrt (sumSq w) := Real.sqrt_pos.mpr hposR
    unfold stubNormalize
    rw [if_pos hsq]
    have hcomp : (w.map fun (x : ℚ) => (x : ℝ) / Real.sqrt (sumSq w)) =
        (w.map fun (x : ℚ) => (x : ℝ)).map fun y => y / Real.sqrt (sumSq w) := by
      rw [List.map_map]; rfl
    rw [hcomp, sumSqR_div, sumSqR_cast, Real.sq_sqrt (le_of_lt hposR)]
    exact div_self (ne_of_gt hposR)
  refine ⟨⟨_, rfl⟩, ?_, ?_, hunit, fun hdim v hv =>
    hunit (stubVector_sumSq_pos _ _ hdim) v hv⟩
  · intro v hv
    have hv' : v = stubNormalize (stubVector g.dimension seed) := by
      simpa [StubGeneratorEmbed] using hv.symm
    subst hv'
    unfold stubNormalize
    split <;> rw [List.length_map] <;> exact stubVector_length _ _
  · intro g2 h
    simp [StubGeneratorEmbed, h]

/-- Witness for the stub generator theorem at dimension 2 and seed 0. -/
theorem stub_embed_witness :
    0 < sumSq (stubVector (StubGenerator.mk 2).dimension 0) ∧
    ∃ v, StubGeneratorEmbed ⟨2⟩ 0 = Except.ok v ∧ v.length = 2 ∧ sumSqR v = 1 := by
  have hpos : 0 < sumSq (stubVector (StubGenerator.mk 2).dimension 0) := by
    show 0 < sumSq (stubVector 2 0)
    simp only [stubVector, lcgNext, stubComponent, sumSq, List.map_cons, List.map_nil,
      List.sum_cons, List.sum_nil]
    norm_num
  obtain ⟨v, hv⟩ := (stub_embed_normalized ⟨2⟩ 0).1
  exact ⟨hpos, v, hv, (stub_embed_normalized ⟨2⟩ 0).2.1 v hv,
    (stub_embed_normalized ⟨2⟩ 0).2.2.2.1 hpos v hv⟩

/-- The collision test of the upsert agrees with dedup-key equality. -/
theorem rowKeyMatches_iff (nr r : ChunkRow) :
    rowKeyMatches nr.project_id nr.content_hash r = true ↔ chunkKey r = chunkKey nr := by
  simp [rowKeyMatches, chunkKey, Prod.ext_iff]

/-- The conflict-update of a row keeps its dedup key. -/
theorem chunkKey_update (r nr : ChunkRow) (now : Nat) :
    chunkKey { r with updated_at := now, embedding := nr.embedding,
                      embedding_model := nr.embedding_model } = chunkKey r := rfl

/-- C2: upserting against an existing (project_id, content_hash) key changes
no row count; every row with a different key is untouched; the colliding row
gets exactly the new embedding, embedding_model and updated_at while every
other column (created_at included) is kept; and key uniqueness is preserved
by both the update and the insert branch. -/
theorem upsert_dedup_frame :
    (∀ rows newRow now, UniqueKeys rows → UniqueKeys (upsertChunkRow rows newRow now)) ∧
    (∀ (rows : List ChunkRow) (newRow : ChunkRow) (now : Nat),
      (∃ x ∈ rows, chunkKey x = chunkKey newRow) →
      ∃ hlen : (upsertChunkRow rows newRow now).length = rows.length,
        ∀ i : Fin rows.length,
          (chunkKey (rows.get i) ≠ chunkKey newRow →
            (upsertChunkRow rows newRow now).get (i.cast hlen.symm) = rows.get i) ∧
          (chunkKey (rows.get i) = chunkKey newRow →
            (upsertChunkRow rows newRow now).get (i.cast hlen.symm) =
              { rows.get i with embedding := newRow.embedding, embedding_model := newRow.embedding_model, updated_at := now })) := by
  constructor
  · intro rows newRow now h
    unfold upsertChunkRow
    split
    · refine List.Pairwise.map _ ?_ h
      intro a b hab
      have ha := chunkKey_update a newRow now
      have hb := chunkKey_update b newRow now
      by_cases h1 : rowKeyMatches newRow.project_id newRow.content_hash a <;>
        by_cases h2 : rowKeyMatches newRow.project_id newRow.content_hash b <;>
          simp only [h1, h2, if_true, if_false, ite_true, ite_false, ha, hb] <;> exact hab
    · rename_i hnone
      unfold UniqueKeys at h ⊢
      rw [List.pairwise_append]
      refine ⟨h, List.pairwise_singleton _ _, ?_⟩
      intro a ha b hb
      simp only [List.mem_singleton] at hb
      subst hb
      have : ¬ ∃ x ∈ rows, rowKeyMatches newRow.project_id newRow.content_hash x = true := by
        rw [← List.any_eq_true]
        exact hnone
      intro hkey
      exact this ⟨a, ha, (rowKeyMatches_iff newRow a).mpr (by simpa using hkey)⟩
  · intro rows newRow now hex
    have hany : rows.any (rowKeyMatches newRow.project_id newRow.content_hash) = true := by
      rw [List.any_eq_true]
      obtain ⟨x, hx, hkey⟩ := hex
      exact ⟨x, hx, (rowKeyMatches_iff newRow x).mpr hkey⟩
    have hres : upsertChunkRow rows newRow now =
        rows.map (fun r =>
          if rowKeyMatches newRow.project_id newRow.content_hash r then
            { r with updated_at := now, embedding := newRow.embedding, embedding_model := newRow.embedding_model }
          else r) := by
      unfold upsertChunkRow
      rw [if_pos hany]
    have hlen : (upsertChunkRow rows newRow now).length = rows.length := by
      rw [hres, List.length_map]
    refine ⟨hlen, ?_⟩
    intro i
    have hget : (upsertChunkRow rows newRow now).get (i.cast hlen.symm) =
        if rowKeyMatches newRow.project_id newRow.content_hash (rows.get i) then
          { rows.get i with updated_at := now, embedding := newRow.embedding, embedding_model := newRow.embedding_model }
        else rows.get i := by
      rw [List.get_of_eq hres]
      exact List.get_map _
    constructor
    · intro hne
      rw [hget, if_neg]
      intro hmatch
      exact hne ((rowKeyMatches_iff newRow (rows.get i)).mp hmatch)
    · intro heq
      rw [hget, if_pos ((rowKeyMatches_iff newRow (rows.get i)).mpr heq)]

/-- Witness for the upsert theorem: a two-row table hit on its first key. -/
theorem upsert_dedup_witness :
    UniqueKeys (upsertChunkRow [rowA, rowB] rowA' 99) ∧
    (upsertChunkRow [rowA, rowB] rowA' 99).length = [rowA, rowB].length := by
  have h1 : UniqueKeys [rowA, rowB] := by
    unfold UniqueKeys
    decide
  have h2 : ∃ x ∈ [rowA, rowB], chunkKey x = chunkKey rowA' :=
    ⟨rowA, by decide, by decide⟩
  obtain ⟨hlen, _⟩ := upsert_dedup_frame.2 [rowA, rowB] rowA' 99 h2
  exact ⟨upsert_dedup_frame.1 [rowA, rowB] rowA' 99 h1, hlen⟩

/-- chunkBySize takes the nil-error path on every input. -/
theorem chunkBySize_ok (path content : GoStr) (maxSize : Nat) (language fileType : GoStr) :
    ∃ cs, chunkBySize path content maxSize language fileType = Except.ok cs := by
  unfold chunkBySize
  split <;> exact ⟨_, rfl⟩

/-- Sequencing steps that cannot fail cannot fail. -/
theorem exceptConcatMap_ok {α β ε : Type} (f : α → Except ε (List β)) :
    ∀ l : List α, (∀ a ∈ l, ∃ bs, f a = Except.ok bs) →
      ∃ bs, exceptConcatMap f l = Except.ok bs := by
  intro l
  induction l with
  | nil => intro _; exact ⟨[], rfl⟩
  | cons a as ih =>
    intro h
    obtain ⟨bs, hbs⟩ := h a (List.mem_cons_self a as)
    obtain ⟨rest, hrest⟩ := ih fun x hx => h x (List.mem_cons_of_mem a hx)
    refine ⟨bs ++ rest, ?_⟩
    unfold exceptConcatMap
    rw [hbs, hrest]

/-- A function segment of chunkPHP never fails. -/
theorem phpFuncChunk_ok (path : GoStr) (maxSize : Nat) (className classContent : GoStr)
    (seg : Nat × Nat × GoStr) :
    ∃ cs, phpFuncChunk path maxSize className classContent seg = Except.ok cs := by
  unfold phpFuncChunk
  dsimp only
  split
  · exact ⟨_, rfl⟩
  · obtain ⟨cs, hcs⟩ := chunkBySize_ok path (goSlice classContent seg.1 seg.2.1) maxSize
      "PHP".toList (getFileType path)
    rw [hcs]
    exact ⟨_, rfl⟩

/-- A class segment of chunkPHP never fails. -/
theorem phpClassChunks_ok (path : GoStr) (maxSize : Nat) (content : GoStr)
    (seg : Nat × Nat × GoStr) :
    ∃ cs, phpClassChunks path maxSize content seg = Except.ok cs := by
  unfold phpClassChunks
  dsimp only
  split
  · exact ⟨_, rfl⟩
  · exact exceptConcatMap_ok _ _ fun a _ => phpFuncChunk_ok path maxSize seg.2.2 _ a

/-- chunkPHP never fails. -/
theorem chunkPHP_ok (rules : RAGConfig) (path content : GoStr) :
    ∃ cs, chunkPHP rules path content = Except.ok cs := by
  unfold chunkPHP
  dsimp only
  split
  · exact chunkBySize_ok _ _ _ _ _
  · exact exceptConcatMap_ok _ _ fun a _ => phpClassChunks_ok path _ content a

/-- chunkTwig never fails. -/
theorem chunkTwig_ok (rules : RAGConfig) (path content : GoStr) :
    ∃ cs, chunkTwig rules path content = Except.ok cs := by
  unfold chunkTwig
  dsimp only
  split
  · exact ⟨_, rfl⟩
  · split
    · exact chunkBySize_ok _ _ _ _ _
    · exact ⟨_, rfl⟩

/-- chunkYAML never fails. -/
theorem chunkYAML_ok (rules : RAGConfig) (path content : GoStr) :
    ∃ cs, chunkYAML rules path content = Except.ok cs := by
  unfold chunkYAML
  dsimp only
  split <;> exact ⟨_, rfl⟩

/-- chunkMarkdown never fails. -/
theorem chunkMarkdown_ok (path content : GoStr) :
    ∃ cs, chunkMarkdown path content = Except.ok cs := by
  unfold chunkMarkdown
  dsimp only
  split <;> exact ⟨_, rfl⟩

/-- chunkDocument never fails. -/
theorem chunkDocument_ok (path content : GoStr) :
    ∃ cs, chunkDocument path content = Except.ok cs := by
  unfold chunkDocument
  split
  · exact chunkMarkdown_ok _ _
  · exact chunkBySize_ok _ _ _ _ _

/-- The store loop never sets the chunkFailed flag. -/
theorem foldl_storeStep_chunkFailed (embed : String → Except String (List ℚ))
    (hashHex : String → String) (projectID embeddingModel commitSHA : String) (now : Nat) :
    ∀ (chunks : List Chunk) (acc : FilePass),
      (chunks.foldl (storeStep embed hashHex projectID embeddingModel commitSHA now)
        acc).chunkFailed = acc.chunkFailed := by
  intro chunks
  induction chunks with
  | nil => intro acc; rfl
  | cons c cs ih =>
    intro acc
    rw [List.foldl_cons, ih]
    unfold storeStep
    split <;> rfl

/-- C10: no chunking strategy can fail, so ChunkFile always returns a nil
error and the warn-and-skip failed-to-chunk branch in Indexer.Index is
unreachable. -/
theorem chunk_engine_never_fails :
    (∀ rules path content, ∃ cs, ChunkFile rules path content = Except.ok cs) ∧
    (∀ rules embed hashHex projectID embeddingModel commitSHA rows path content now,
      (indexFile rules embed hashHex projectID embeddingModel commitSHA rows path
        content now).chunkFailed = false) := by
  have hok : ∀ rules path content, ∃ cs, ChunkFile rules path content = Except.ok cs := by
    intro rules path content
    unfold ChunkFile
    dsimp only
    split
    · exact chunkPHP_ok _ _ _
    split
    · exact chunkTwig_ok _ _ _
    split
    · exact chunkYAML_ok _ _ _
    split
    · exact ⟨_, rfl⟩
    split
    · exact ⟨_, rfl⟩
    split
    · exact chunkBySize_ok _ _ _ _ _
    split
    · exact chunkDocument_ok _ _
    · exact chunkBySize_ok _ _ _ _ _
  refine ⟨hok, ?_⟩
  intro rules embed hashHex projectID embeddingModel commitSHA rows path content now
  obtain ⟨cs, hcs⟩ := hok rules path content
  unfold indexFile
  rw [hcs]
  exact foldl_storeStep_chunkFailed _ _ _ _ _ _ cs ⟨rows, 0, false⟩

/-- chunkBySize on empty content: one whole-file chunk with empty content. -/
theorem chunkBySize_empty (path : GoStr) (maxSize : Nat) (language fileType : GoStr) :
    chunkBySize path [] maxSize language fileType =
      Except.ok [{ path := path, language := language, symbol := [], component := getComponent path, content := [], type := fileType }] := by
  simp [chunkBySize]

/-- chunkPHP on empty content falls through to a single empty chunk. -/
theorem chunkPHP_empty (rules : RAGConfig) (path : GoStr) :
    chunkPHP rules path [] =
      Except.ok [{ path := path, language := "PHP".toList, symbol := [], component := getComponent path, content := [], type := "code".toList }] := by
  simp [chunkPHP, findClassMatches, scanMatches, chunkBySize]

/-- chunkTwig on empty content. -/
theorem chunkTwig_empty (rules : RAGConfig) (path : GoStr) :
    chunkTwig rules path [] =
      Except.ok [{ path := path, language := "Twig".toList, symbol := [], component := getComponent path, content := [], type := "code".toList }] := by
  simp [chunkTwig]

/-- chunkYAML on empty content. -/
theorem chunkYAML_empty (rules : RAGConfig) (path : GoStr) :
    chunkYAML rules path [] =
      Except.ok [{ path := path, language := "YAML".toList, symbol := [], component := getComponent path, content := [], type := getFileType path }] := by
  simp [chunkYAML]

/-- chunkMakefile on empty content: an empty scanner run, no chunks. -/
theorem chunkMakefile_empty (path : GoStr) : chunkMakefile path [] = Except.ok [] := by
  simp [chunkMakefile, scanLines, makeLoop, accStr]

/-- chunkDockerCompose on empty content: no chunks. -/
theorem chunkDockerCompose_empty (path : GoStr) :
    chunkDockerCompose path [] = Except.ok [] := by
  simp [chunkDockerCompose, scanLines, composeLoop, accStr]

/-- chunkMarkdown on empty content: no headings, one empty chunk. -/
theorem chunkMarkdown_empty (path : GoStr) :
    chunkMarkdown path [] =
      Except.ok [{ path := path, language := "Markdown".toList, symbol := [], component := "docs".toList, content := [], type := "doc".toList }] := by
  simp [chunkMarkdown, findHeadingMatches, scanMatches]

/-- Every strategy maps empty content to at most one fragment, and any
produced fragment has empty content. -/
theorem chunkFile_empty (rules : RAGConfig) (path : GoStr) :
    ∃ cs, ChunkFile rules path ([] : GoStr) = Except.ok cs ∧
      cs.length ≤ 1 ∧ ∀ c ∈ cs, c.content = [] := by
  unfold ChunkFile
  dsimp only
  split
  · rw [chunkPHP_empty]
    exact ⟨_, rfl, by simp, by intro c hc; simp at hc; subst hc; rfl⟩
  split
  · rw [chunkTwig_empty]
    exact ⟨_, rfl, by simp, by intro c hc; simp at hc; subst hc; rfl⟩
  split
  · rw [chunkYAML_empty]
    exact ⟨_, rfl, by simp, by intro c hc; simp at hc; subst hc; rfl⟩
  split
  · rw [chunkMakefile_empty]
    exact ⟨[], rfl, by simp, by simp⟩
  split
  · rw [chunkDockerCompose_empty]
    exact ⟨[], rfl, by simp, by simp⟩
  split
  · unfold chunkJavaScript
    rw [chunkBySize_empty]
    exact ⟨_, rfl, by simp, by intro c hc; simp at hc; subst hc; rfl⟩
  split
  · unfold chunkDocument
    split
    · rw [chunkMarkdown_empty]
      exact ⟨_, rfl, by simp, by intro c hc; simp at hc; subst hc; rfl⟩
    · rw [chunkBySize_empty]
      exact ⟨_, rfl, by simp, by intro c hc; simp at hc; subst hc; rfl⟩
  · unfold chunkGeneric
    rw [chunkBySize_empty]
    exact ⟨_, rfl, by simp, by intro c hc; simp at hc; subst hc; rfl⟩

/-- C7(corrected): an empty file never errors, but the extension-based
strategies emit exactly one fragment with empty content rather than zero
(only the Makefile and docker-compose scanners emit none), and the
orchestrator stores whatever was emitted - at most one row per empty file -
instead of skipping it. -/
theorem empty_file_fragments :
    (∀ rules path, ∃ cs, ChunkFile rules path ([] : GoStr) = Except.ok cs ∧
      cs.length ≤ 1 ∧ ∀ c ∈ cs, c.content = []) ∧
    (∀ rules embed hashHex projectID embeddingModel commitSHA rows path now,
      (indexFile rules embed hashHex projectID embeddingModel commitSHA rows path
        ([] : GoStr) now).storedCount ≤ 1) := by
  refine ⟨chunkFile_empty, ?_⟩
  intro rules embed hashHex projectID embeddingModel commitSHA rows path now
  obtain ⟨cs, hcs, hlen, _⟩ := chunkFile_empty rules path
  unfold indexFile
  rw [hcs]
  match cs, hlen with
  | [], _ => exact Nat.zero_le 1
  | [c], _ =>
    show (storeStep embed hashHex projectID embeddingModel commitSHA now
      ⟨rows, 0, false⟩ c).storedCount ≤ 1
    unfold storeStep
    split <;> simp
  | c1 :: c2 :: cs', hlen => simp at hlen

/-- Counterexample to the original claim: an empty PHP file yields one stored
fragment with empty content, not zero, and the orchestrator stores it. -/
theorem empty_file_cex :
    ((ChunkFile (exRules 2000) "src/a.php".toList []).toOption.map
        (fun cs => (cs.length, cs.map Chunk.content))) = some (1, [[]]) ∧
    (indexFile (exRules 2000) (fun _ => Except.ok []) (fun _ => "h") "p" "m" ""
      [] "src/a.php".toList [] 7).storedCount = 1 := by
  exact ⟨by decide, by decide⟩

/-- Witness instantiating the corrected empty-file theorem on a YAML path. -/
theorem empty_file_witness :
    ∃ cs, ChunkFile (exRules 2000) "b.yaml".toList ([] : GoStr) = Except.ok cs ∧
      cs.length ≤ 1 ∧ ∀ c ∈ cs, c.content = [] :=
  empty_file_fragments.1 (exRules 2000) "b.yaml".toList

/-- C1: whenever searchSimilarChunks succeeds, it returns at most limit
results, each backed by a stored row of the requested project, ordered
nearest-first (non-increasing similarity, i.e. non-decreasing cosine
distance), and each reported similarity is 1 minus the row's cosine distance
to the query vector. -/
theorem search_scoped_sorted :
    ∀ (dist : List ℚ → List ℚ → ℚ) (rows : List ChunkRow) (projectID : String)
      (queryEmbedding : List ℚ) (limit : Int) (res : List SearchResult),
      searchSimilarChunks dist rows projectID queryEmbedding limit = Except.ok res →
      res.length ≤ limit.toNat ∧
      List.Pairwise (fun a b => b.similarity ≤ a.similarity) res ∧
      ∀ r ∈ res, ∃ row, row ∈ rows ∧ row.project_id = projectID ∧
        r = rowToSearchResult dist queryEmbedding row ∧
        r.similarity = 1 - dist row.embedding queryEmbedding := by
  intro dist rows projectID queryEmbedding limit res h
  unfold searchSimilarChunks at h
  split at h
  · exact absurd h (by simp)
  have hres : res = (((rows.filter fun r => decide (r.project_id = projectID)).mergeSort
      fun a b => decide (dist a.embedding queryEmbedding ≤ dist b.embedding queryEmbedding)).take
        limit.toNat).map (rowToSearchResult dist queryEmbedding) := by
    simpa using h.symm
  subst hres
  refine ⟨?_, ?_, ?_⟩
  · rw [List.length_map, List.length_take]
    exact min_le_left _ _
  · have hsorted : List.Pairwise
        (fun a b : ChunkRow =>
          (fun a b => decide (dist a.embedding queryEmbedding ≤
            dist b.embedding queryEmbedding)) a b = true)
        ((rows.filter fun r => decide (r.project_id = projectID)).mergeSort
          fun a b => decide (dist a.embedding queryEmbedding ≤
            dist b.embedding queryEmbedding)) := by
      apply List.sorted_mergeSort
      · intro a b c hab hbc
        simp only [decide_eq_true_eq] at *
        exact le_trans hab hbc
      · intro a b
        simp only [Bool.or_eq_true, decide_eq_true_eq]
        exact le_total _ _
    have htake := hsorted.sublist (List.take_sublist limit.toNat _)
    refine htake.map (rowToSearchResult dist queryEmbedding) ?_
    intro a b hab
    simp only [decide_eq_true_eq] at hab
    show (rowToSearchResult dist queryEmbedding b).similarity ≤
      (rowToSearchResult dist queryEmbedding a).similarity
    simp only [rowToSearchResult]
    exact sub_le_sub_left hab 1
  · intro r hr
    rw [List.mem_map] at hr
    obtain ⟨row, hrow, hr⟩ := hr
    have h1 : row ∈ (rows.filter fun r => decide (r.project_id = projectID)).mergeSort
        fun a b => decide (dist a.embedding queryEmbedding ≤
          dist b.embedding queryEmbedding) :=
      List.Sublist.mem hrow (List.take_sublist _ _)
    have h2 : row ∈ rows.filter fun r => decide (r.project_id = projectID) :=
      List.mem_mergeSort.mp h1
    rw [List.mem_filter] at h2
    exact ⟨row, h2.1, of_decide_eq_true h2.2, hr.symm, by rw [← hr]; rfl⟩

/-- Witness for the search theorem on a one-row table. -/
theorem search_scoped_witness :
    ∃ res, searchSimilarChunks (fun _ _ => 0) [rowA] "p" [] 3 = Except.ok res ∧
      res.length ≤ (3 : Int).toNat ∧
      ∀ r ∈ res, r.similarity = 1 - (0 : ℚ) := by
  have h : searchSimilarChunks (fun _ _ => 0) [rowA] "p" [] 3 =
      Except.ok [rowToSearchResult (fun _ _ => 0) [] rowA] := by
    simp [searchSimilarChunks, rowA]
  obtain ⟨hlen, _, hmem⟩ := search_scoped_sorted (fun _ _ => 0) [rowA] "p" [] 3 _ h
  refine ⟨_, h, hlen, ?_⟩
  intro r hr
  obtain ⟨row, _, _, _, hsim⟩ := hmem r hr
  exact hsim

/-- C8: whenever getFileContext succeeds it returns at most limit results;
with a non-empty symbol every returned exact-symbol row precedes every
returned row with a different symbol (the result splits at an index k); with
an empty symbol the results are a prefix of the path's rows in storage
order. -/
theorem get_context_symbol_ordering :
    ∀ (rows : List ChunkRow) (projectID path symbol : String) (limit : Int)
      (res : List SearchResult),
      getFileContext rows projectID path symbol limit = Except.ok res →
      res.length ≤ limit.toNat ∧
      (symbol ≠ "" → ∃ k,
        (∀ r ∈ res.take k, r.symbol = symbol) ∧
        (∀ r ∈ res.drop k, r.symbol ≠ symbol)) ∧
      (symbol = "" → ∃ k, res =
        ((rows.filter fun r =>
          decide (r.project_id = projectID ∧ r.path = path)).take k).map
            rowToContextResult) := by
  intro rows projectID path symbol limit res h
  unfold getFileContext at h
  split at h
  · exact absurd h (by simp)
  split at h
  · rename_i hsym
    have hres : res = (((rows.filter fun r =>
          decide (r.project_id = projectID ∧ r.path = path ∧ r.symbol = some symbol)) ++
        (rows.filter fun r =>
          decide (r.project_id = projectID ∧ r.path = path) &&
            (match r.symbol with
             | some s => decide (s ≠ symbol)
             | none => false))).take limit.toNat).map rowToContextResult := by
      simpa using h.symm
    subst hres
    set A := rows.filter fun r =>
      decide (r.project_id = projectID ∧ r.path = path ∧ r.symbol = some symbol) with hA
    set B := rows.filter fun r =>
      decide (r.project_id = projectID ∧ r.path = path) &&
        (match r.symbol with
         | some s => decide (s ≠ symbol)
         | none => false) with hB
    refine ⟨?_, ?_, ?_⟩
    · rw [List.length_map, List.length_take]
      exact min_le_left _ _
    · intro _
      rw [List.take_append_eq_append_take, List.map_append]
      refine ⟨(List.take limit.toNat A).length, ?_, ?_⟩
      · intro r hr
        rw [← List.length_map (List.take limit.toNat A) rowToContextResult,
          List.take_left] at hr
        rw [List.mem_map] at hr
        obtain ⟨row, hrow, hr⟩ := hr
        have hrA : row ∈ A := List.Sublist.mem hrow (List.take_sublist _ _)
        rw [hA, List.mem_filter] at hrA
        have := of_decide_eq_true hrA.2
        rw [← hr]
        simp [rowToContextResult, this.2.2]
      · intro r hr
        rw [← List.length_map (List.take limit.toNat A) rowToContextResult,
          List.drop_left] at hr
        rw [List.mem_map] at hr
        obtain ⟨row, hrow, hr⟩ := hr
        have hrB : row ∈ B := List.Sublist.mem hrow (List.take_sublist _ _)
        rw [hB, List.mem_filter, Bool.and_eq_true] at hrB
        rcases hsymr : row.symbol with _ | s
        · rw [hsymr] at hrB
          simp at hrB
        · rw [hsymr] at hrB
          have hs : s ≠ symbol := of_decide_eq_true hrB.2.2
          rw [← hr]
          simpa [rowToContextResult, hsymr] using hs
    · intro h0
      exact absurd h0 hsym
  · rename_i hsym
    have hsym' : symbol = "" := by
      by_contra hc
      exact hsym hc
    have hres : res = ((rows.filter fun r =>
        decide (r.project_id = projectID ∧ r.path = path)).take limit.toNat).map
          rowToContextResult := by
      simpa using h.symm
    subst hres
    refine ⟨?_, ?_, ?_⟩
    · rw [List.length_map, List.length_take]
      exact min_le_left _ _
    · intro hne
      exact absurd hsym' hne
    · intro _
      exact ⟨limit.toNat, rfl⟩

/-- Witness for the get-context theorem: a two-row file where the exact
symbol row precedes the other. -/
theorem get_context_witness :
    ∃ res, getFileContext [rowA, rowB] "p" "a.php" "Foo" 5 = Except.ok res ∧
      res.length ≤ (5 : Int).toNat ∧
      ∃ k, (∀ r ∈ res.take k, r.symbol = "Foo") ∧
        (∀ r ∈ res.drop k, r.symbol ≠ "Foo") := by
  have h : getFileContext [rowA, rowB] "p" "a.php" "Foo" 5 =
      Except.ok [rowToContextResult rowA, rowToContextResult rowB] := by
    simp [getFileContext, rowA, rowB]
  obtain ⟨hlen, hord, _⟩ := get_context_symbol_ordering [rowA, rowB] "p" "a.php" "Foo" 5 _ h
  exact ⟨_, h, hlen, hord (by decide)⟩

/-- The builder distributes over list append. -/
theorem accStr_append (a b : List GoStr) : accStr (a ++ b) = accStr a ++ accStr b := by
  simp [accStr]

/-- The builder contents for a single written line. -/
theorem accStr_singleton (l : GoStr) : accStr [l] = l ++ ['\n'] := by
  simp [accStr]

/-- Dropping trailing whitespace ignores a final newline. -/
theorem trimRight_append_newline (s : GoStr) : trimRight (s ++ ['\n']) = trimRight s := by
  unfold trimRight
  rw [List.reverse_append]
  simp only [List.reverse_singleton, List.singleton_append, List.dropWhile_cons]
  rw [if_pos (by decide : goIsSpace '\n' = true)]

/-- TrimSpace ignores a final newline. -/
theorem trimSpace_append_newline (s : GoStr) : trimSpace (s ++ ['\n']) = trimSpace s := by
  unfold trimSpace
  rw [trimRight_append_newline]

/-- Trimming the right end never lengthens a string. -/
theorem length_trimRight_le (s : GoStr) : (trimRight s).length ≤ s.length := by
  unfold trimRight
  rw [List.length_reverse]
  calc (s.reverse.dropWhile goIsSpace).length ≤ s.reverse.length :=
        (List.dropWhile_sublist _).length_le
    _ = s.length := List.length_reverse s

/-- TrimSpace never lengthens a string. -/
theorem length_trimSpace_le (s : GoStr) : (trimSpace s).length ≤ s.length := by
  unfold trimSpace trimLeft
  calc ((trimRight s).dropWhile goIsSpace).length ≤ (trimRight s).length :=
        (List.dropWhile_sublist _).length_le
    _ ≤ s.length := length_trimRight_le s

/-- What an emitted builder can look like under the loop invariant: within
the budget after trimming, or a lone line that alone exceeds the budget. -/
theorem emit_cases (maxSize : Nat) (acc : List GoStr)
    (hinv : acc = [] ∨ (accStr acc).length ≤ maxSize + 1 ∨ ∃ l, acc = [l]) :
    (trimSpace (accStr acc)).length ≤ maxSize ∨
      ∃ l, l ∈ acc ∧ trimSpace (accStr acc) = trimSpace l ∧ maxSize < l.length := by
  rcases hinv with rfl | h | ⟨l, rfl⟩
  · left; simp [accStr, trimSpace, trimLeft, trimRight]
  · rcases List.eq_nil_or_concat acc with rfl | ⟨init, last, hconcat⟩
    · left; simp [accStr, trimSpace, trimLeft, trimRight]
    · rw [List.concat_eq_append] at hconcat
      subst hconcat
      have hacc : accStr (init ++ [last]) = (accStr init ++ last) ++ ['\n'] := by
        rw [accStr_append, accStr_singleton, ← List.append_assoc]
      left
      rw [hacc, trimSpace_append_newline]
      have h1 : (trimSpace (accStr init ++ last)).length ≤ (accStr init ++ last).length :=
        length_trimSpace_le _
      have h2 : (accStr (init ++ [last])).length = (accStr init ++ last).length + 1 := by
        rw [hacc]; simp; omega
      omega
  · have hacc : accStr [l] = l ++ ['\n'] := accStr_singleton l
    by_cases hl : l.length ≤ maxSize
    · left
      rw [hacc, trimSpace_append_newline]
      exact le_trans (length_trimSpace_le l) hl
    · right
      exact ⟨l, List.mem_singleton.mpr rfl, by rw [hacc, trimSpace_append_newline], by omega⟩

/-- Soundness of the chunkBySize line loop: every emitted chunk is within
the budget (or is a lone oversized line), and its content is the trimmed
join of a consecutive run of whole input lines. -/
theorem chunkLoop_sound (path lang ftype : GoStr) (maxSize : Nat) :
    ∀ (ls acc : List GoStr) (n : Nat),
      (acc = [] ∨ (accStr acc).length ≤ maxSize + 1 ∨ ∃ l, acc = [l]) →
      ∀ c ∈ chunkLoop path lang ftype maxSize ls acc n,
        (c.content.length ≤ maxSize ∨
          ∃ l, l ∈ acc ++ ls ∧ c.content = trimSpace l ∧ maxSize < l.length) ∧
        (∃ i k, c.content = trimSpace (accStr (((acc ++ ls).drop i).take k))) := by
  intro ls
  induction ls with
  | nil =>
    intro acc n hinv c hc
    unfold chunkLoop at hc
    split at hc
    · rw [List.mem_singleton] at hc
      subst hc
      constructor
      · rcases emit_cases maxSize acc hinv with h | ⟨l, hl, he, hlen⟩
        · left; exact h
        · right
          exact ⟨l, by rw [List.append_nil]; exact hl, he, hlen⟩
      · refine ⟨0, acc.length, ?_⟩
        rw [List.append_nil, List.drop_zero, List.take_length]
        rfl
    · simp at hc
  | cons line ls' ih =>
    intro acc n hinv c hc
    unfold chunkLoop at hc
    split at hc
    · rw [List.mem_cons] at hc
      rcases hc with rfl | hc
      · constructor
        · rcases emit_cases maxSize acc hinv with h | ⟨l, hl, he, hlen⟩
          · left; exact h
          · right; exact ⟨l, List.mem_append_left _ hl, he, hlen⟩
        · refine ⟨0, acc.length, ?_⟩
          rw [List.drop_zero, List.take_left]
          rfl
      · obtain ⟨hlenOr, ⟨i, k, hslice⟩⟩ :=
          ih [line] (n + 1) (Or.inr (Or.inr ⟨line, rfl⟩)) c hc
        constructor
        · rcases hlenOr with h | ⟨l, hl, he, hl2⟩
          · left; exact h
          · right
            refine ⟨l, ?_, he, hl2⟩
            exact List.mem_append_right acc (by simpa using hl)
        · refine ⟨acc.length + i, k, ?_⟩
          have hdrop : (acc ++ line :: ls').drop (acc.length + i) = (line :: ls').drop i := by
            rw [← List.drop_drop, List.drop_left]
          rw [hdrop]
          simpa [List.singleton_append] using hslice
    · rename_i hguard
      have hinv' : acc ++ [line] = [] ∨
          (accStr (acc ++ [line])).length ≤ maxSize + 1 ∨ ∃ l, acc ++ [line] = [l] := by
        right; left
        rw [accStr_append, accStr_singleton, List.length_append, List.length_append]
        simp only [List.length_singleton]
        omega
      have hrec := ih (acc ++ [line]) n hinv' c hc
      have hL : (acc ++ [line]) ++ ls' = acc ++ line :: ls' := by
        rw [List.append_assoc, List.singleton_append]
      rw [hL] at hrec
      exact hrec

/-- C5: every fragment emitted by the size-based strategy has content of at
most the configured max size, except a fragment that is a single (trimmed)
source line whose raw length alone exceeds the max size; and every fragment
consists of whole source lines - the trimmed join of a consecutive run of
the split lines (or the verbatim whole file), so no line is ever split
across fragments. -/
theorem chunkBySize_bounds :
    ∀ (path content : GoStr) (maxSize : Nat) (language fileType : GoStr) cs,
      chunkBySize path content maxSize language fileType = Except.ok cs →
      ∀ c ∈ cs,
        (c.content.length ≤ maxSize ∨
          ∃ l ∈ splitLines content, c.content = trimSpace l ∧ maxSize < l.length) ∧
        (c.content = content ∨
          ∃ i k, c.content = trimSpace (accStr (((splitLines content).drop i).take k))) := by
  intro path content maxSize language fileType cs h
  unfold chunkBySize at h
  split at h
  · rename_i hsmall
    have hcs : cs = [{ path := path, language := language, symbol := [], component := getComponent path, content := content, type := fileType }] := by
      simpa using h.symm
    subst hcs
    intro c hc
    rw [List.mem_singleton] at hc
    subst hc
    exact ⟨Or.inl hsmall, Or.inl rfl⟩
  · have hcs : cs = chunkLoop path language fileType maxSize (splitLines content) [] 0 := by
      simpa using h.symm
    subst hcs
    intro c hc
    obtain ⟨h1, h2⟩ := chunkLoop_sound path language fileType maxSize
      (splitLines content) [] 0 (Or.inl rfl) c hc
    rw [List.nil_append] at h1 h2
    exact ⟨h1.imp_right (fun ⟨l, hl, he, hlen⟩ => ⟨l, hl, he, hlen⟩), Or.inr h2⟩

/-- Witness for the size-based bounds on a concrete two-line file. -/
theorem chunkBySize_bounds_witness :
    ∃ cs, chunkBySize [] "ab\ncd".toList 3 [] [] = Except.ok cs ∧
      ∀ c ∈ cs,
        c.content.length ≤ 3 ∨
          ∃ l ∈ splitLines "ab\ncd".toList, c.content = trimSpace l ∧ 3 < l.length := by
  have h : chunkBySize [] "ab\ncd".toList 3 [] [] = Except.ok
      [sizeChunk [] [] [] ("ab".toList ++ ['\n']) 0,
       sizeChunk [] [] [] ("cd".toList ++ ['\n']) 1] := by decide
  exact ⟨_, h, fun c hc => (chunkBySize_bounds [] _ 3 [] [] _ h c hc).1⟩

/-- Counterexample to the claim as stated: this file has exactly one class
with exactly two detected functions, each under the 2000-character budget,
yet chunkPHP yields one class-named fragment, not two Class::function
fragments, because the whole class also fits the budget. -/
theorem php_two_functions_cex :
    findClassMatches phpTwoFuncFile = [(0, "Foo".toList)] ∧
    findFuncMatches (goSlice phpTwoFuncFile 0 phpTwoFuncFile.length) =
      [(12, "a".toList), (40, "b".toList)] ∧
    (goSlice (goSlice phpTwoFuncFile 0 phpTwoFuncFile.length) 12 40).length ≤ 2000 ∧
    (goSlice (goSlice phpTwoFuncFile 0 phpTwoFuncFile.length) 40
      (goSlice phpTwoFuncFile 0 phpTwoFuncFile.length).length).length ≤ 2000 ∧
    (chunkPHP (exRules 2000) "a.php".toList phpTwoFuncFile).toOption.map
      (fun cs => (cs.length, cs.map Chunk.symbol)) = some (1, ["Foo".toList]) := by
  decide

/-- Sequencing over the empty list. -/
theorem exceptConcatMap_nil {α β ε : Type} (f : α → Except ε (List β)) :
    exceptConcatMap f [] = Except.ok [] := rfl

/-- Sequencing over a cons from successful pieces. -/
theorem exceptConcatMap_cons_ok {α β ε : Type} (f : α → Except ε (List β)) (a : α)
    (as : List α) (bs rest : List β) (ha : f a = Except.ok bs)
    (has : exceptConcatMap f as = Except.ok rest) :
    exceptConcatMap f (a :: as) = Except.ok (bs ++ rest) := by
  unfold exceptConcatMap
  rw [ha, has]

/-- A function segment within the size budget becomes exactly one
Class::function chunk. -/
theorem phpFuncChunk_small (path : GoStr) (maxSize : Nat) (className classContent : GoStr)
    (seg : Nat × Nat × GoStr) (h : (goSlice classContent seg.1 seg.2.1).length ≤ maxSize) :
    phpFuncChunk path maxSize className classContent seg =
      Except.ok [{ path := path, language := "PHP".toList, symbol := className ++ "::".toList ++ seg.2.2, component := getComponent path, content := trimSpace (goSlice classContent seg.1 seg.2.1), type := getFileType path }] := by
  unfold phpFuncChunk
  dsimp only
  rw [if_pos h]

/-- C6(corrected): for a file whose single detected class has exactly two
detected functions, each within the size budget, and whose class content is
at least the size budget (so the class does not collapse into one
class-named fragment), chunkPHP yields exactly two fragments named
Class::func1 and Class::func2 in source order. -/
theorem php_class_two_functions :
    ∀ (rules : RAGConfig) (path content : GoStr) (p f1 f2 : Nat) (cname n1 n2 : GoStr),
      findClassMatches content = [(p, cname)] →
      findFuncMatches (goSlice content p content.length) = [(f1, n1), (f2, n2)] →
      rules.Chunking.PHP.MaxSize ≤ (goSlice content p content.length).length →
      (goSlice (goSlice content p content.length) f1 f2).length ≤
        rules.Chunking.PHP.MaxSize →
      (goSlice (goSlice content p content.length) f2
        (goSlice content p content.length).length).length ≤ rules.Chunking.PHP.MaxSize →
      chunkPHP rules path content = Except.ok
        [{ path := path, language := "PHP".toList, symbol := cname ++ "::".toList ++ n1, component := getComponent path, content := trimSpace (goSlice (goSlice content p content.length) f1 f2), type := getFileType path },
         { path := path, language := "PHP".toList, symbol := cname ++ "::".toList ++ n2, component := getComponent path, content := trimSpace (goSlice (goSlice content p content.length) f2 (goSlice content p content.length).length), type := getFileType path }] := by
  intro rules path content p f1 f2 cname n1 n2 hclass hfunc hbig h1 h2
  have hsegs : segmentsOf [(f1, n1), (f2, n2)] (goSlice content p content.length).length =
      [(f1, f2, n1), (f2, (goSlice content p content.length).length, n2)] := rfl
  have hclassChunks : phpClassChunks path rules.Chunking.PHP.MaxSize content
      (p, content.length, cname) = Except.ok
        [{ path := path, language := "PHP".toList, symbol := cname ++ "::".toList ++ n1, component := getComponent path, content := trimSpace (goSlice (goSlice content p content.length) f1 f2), type := getFileType path },
         { path := path, language := "PHP".toList, symbol := cname ++ "::".toList ++ n2, component := getComponent path, content := trimSpace (goSlice (goSlice content p content.length) f2 (goSlice content p content.length).length), type := getFileType path }] := by
    unfold phpClassChunks
    dsimp only
    rw [hfunc, hsegs, if_neg (by push_neg; exact ⟨by simp, by omega⟩)]
    rw [exceptConcatMap_cons_ok _ _ _ _ _ (phpFuncChunk_small path _ cname _ (f1, f2, n1) h1)
      (exceptConcatMap_cons_ok _ _ _ _ _ (phpFuncChunk_small path _ cname _
        (f2, (goSlice content p content.length).length, n2) h2)
        (exceptConcatMap_nil _))]
    simp
  unfold chunkPHP
  dsimp only
  rw [hclass, if_neg (by simp)]
  show exceptConcatMap (phpClassChunks path rules.Chunking.PHP.MaxSize content)
    (segmentsOf [(p, cname)] content.length) = _
  have hseg1 : segmentsOf [(p, cname)] content.length = [(p, content.length, cname)] := rfl
  rw [hseg1, exceptConcatMap_cons_ok _ _ _ _ _ hclassChunks (exceptConcatMap_nil _)]
  simp

/-- Witness for the corrected two-function theorem: the same file with a
budget of 40 characters, which the 70-character class exceeds while each
function fits. -/
theorem php_class_two_functions_witness :
    chunkPHP (exRules 40) "a.php".toList phpTwoFuncFile = Except.ok
      [{ path := "a.php".toList, language := "PHP".toList, symbol := "Foo".toList ++ "::".toList ++ "a".toList, component := getComponent "a.php".toList, content := trimSpace (goSlice (goSlice phpTwoFuncFile 0 phpTwoFuncFile.length) 12 40), type := getFileType "a.php".toList },
       { path := "a.php".toList, language := "PHP".toList, symbol := "Foo".toList ++ "::".toList ++ "b".toList, component := getComponent "a.php".toList, content := trimSpace (goSlice (goSlice phpTwoFuncFile 0 phpTwoFuncFile.length) 40 (goSlice phpTwoFuncFile 0 phpTwoFuncFile.length).length), type := getFileType "a.php".toList }] :=
  php_class_two_functions (exRules 40) "a.php".toList phpTwoFuncFile 0 12 40
    "Foo".toList "a".toList "b".toList (by decide) (by decide) (by decide)
    (by decide) (by decide)
